import Mathlib

/-!
Verification of the procurement-request validation and reconciliation core.

Shallow embedding of the field validators (`src/asklio-portal-main/src/lib/validation.ts`),
the order-line reconciliation and submit logic of the request form
(`RequestForm`: `updateOrderLine`, `calculateTotal`, `handleSubmit`), and the
status workflow, over `List Char` / `ℚ`.  JavaScript numbers are modelled as
rationals; JavaScript strings as Lean strings (lists of characters).
-/

/-! ## Characters -/

/-- The double-quote character, written by code point to keep sources plain. -/
def quoteChar : Char := Char.ofNat 34

/-- The apostrophe character, written by code point to keep sources plain. -/
def aposChar : Char := Char.ofNat 39

/-- Whitespace as used by JavaScript `String.prototype.trim` and the regex
class `\s`, restricted to the ASCII members (space, tab, line feed, carriage
return, vertical tab, form feed).  The non-ASCII whitespace code points are
not produced by any input considered here. -/
def isWsChar (c : Char) : Bool :=
  c == ' ' || c == Char.ofNat 9 || c == Char.ofNat 10 ||
  c == Char.ofNat 13 || c == Char.ofNat 11 || c == Char.ofNat 12

/-! ## `sanitizeText`

Source (`validation.ts`):
```
input.replace(/[<>]/g, '')
     .replace(/[&"']/g, match => ({'&':'&amp;','"':'&quot;',"'":'&#x27;'}[match]))
     .trim()
```
modelled as three passes over the character list, in the source's order. -/

/-- First `replace`: delete every `<` and `>`. -/
def removeAngleBrackets (l : List Char) : List Char :=
  l.filter (fun c => !(c == '<' || c == '>'))

/-- The per-character entity substitution of the second `replace`. -/
def escapeEntity (c : Char) : List Char :=
  if c = '&' then ['&', 'a', 'm', 'p', ';']
  else if c = quoteChar then ['&', 'q', 'u', 'o', 't', ';']
  else if c = aposChar then ['&', '#', 'x', '2', '7', ';']
  else [c]

/-- Second `replace`: one left-to-right pass substituting entities. -/
def escapeEntities (l : List Char) : List Char :=
  l.flatMap escapeEntity

/-- `String.prototype.trim`: drop whitespace from both ends. -/
def trimWs (l : List Char) : List Char :=
  ((l.dropWhile isWsChar).reverse.dropWhile isWsChar).reverse

/-- `sanitizeText` on character lists. -/
def sanitizeTextList (l : List Char) : List Char :=
  trimWs (escapeEntities (removeAngleBrackets l))

/-- `sanitizeText` from `validation.ts`. -/
def sanitizeText (s : String) : String :=
  String.mk (sanitizeTextList s.data)

/-! ## `ValidationResult` -/

/-- The TypeScript union `string | number` used by `sanitizedValue`. -/
inductive StrOrNum where
  | str (s : String)
  | num (q : ℚ)
deriving DecidableEq, Repr

/-- `ValidationResult` from `validation.ts` (`error?` is an optional field). -/
structure ValidationResult where
  isValid : Bool
  error : Option String
  sanitizedValue : StrOrNum
deriving DecidableEq, Repr

/-! ## `validateVatId` -/

/-- The anchored regex `^[A-Z]{2,4}[0-9]{8,12}$`.  Because the two character
classes are disjoint, a full match exists exactly when the maximal leading
run of upper-case letters has length 2–4 and the remainder is 8–12 digits. -/
def vatMatches (l : List Char) : Bool :=
  let ls := l.takeWhile Char.isUpper
  let ds := l.dropWhile Char.isUpper
  decide (2 ≤ ls.length) && decide (ls.length ≤ 4) &&
  decide (8 ≤ ds.length) && decide (ds.length ≤ 12) && ds.all Char.isDigit

/-- `validateVatId` from `validation.ts`. -/
def validateVatId (vatId : String) : ValidationResult :=
  let san := sanitizeText vatId
  if san.data.length = 0 then
    ⟨false, some ("VAT ID is required"), .str san⟩
  else
    let upperCased := String.mk (san.data.map Char.toUpper)
    if !(vatMatches upperCased.data) then
      ⟨false, some ("VAT ID must be 2-4 letters followed by 8-12 digits (e.g., DE123456789)"),
        .str upperCased⟩
    else
      ⟨true, none, .str upperCased⟩

/-! ## `validateDepartment` -/

/-- The regex class `[A-Za-z\s\-&.()]` (with `\s` as `isWsChar`). -/
def isDeptAllowedChar (c : Char) : Bool :=
  c.isAlpha || isWsChar c || c == '-' || c == '&' || c == '.' || c == '(' || c == ')'

/-- `validateDepartment` from `validation.ts`: empty check, then the anchored
pattern `^[A-Za-z\s\-&.()]+$` (equivalent, on a non-empty string, to every
character lying in the class), then the length-50 check with truncation. -/
def validateDepartment (department : String) : ValidationResult :=
  let san := sanitizeText department
  if san.data.length = 0 then
    ⟨false, some ("Department is required"), .str san⟩
  else if !(san.data.all isDeptAllowedChar) then
    ⟨false, some ("Department can only contain letters, spaces, hyphens, and common punctuation"),
      .str (String.mk (san.data.filter isDeptAllowedChar))⟩
  else if 50 < san.data.length then
    ⟨false, some ("Department must be 50 characters or less"),
      .str (String.mk (san.data.take 50))⟩
  else
    ⟨true, none, .str san⟩

/-! ## `parseFloat` and `validateNumericInput`

`validateNumericInput` calls the JavaScript builtin `parseFloat`, modelled
here by ECMA-262 `parseFloat` semantics restricted to finite decimals: skip
leading whitespace, optional sign, longest decimal-literal prefix
(`digits [. digits] [e/E [sign] digits]`), `none` (NaN) when no such prefix
exists.  The `Infinity` literal is not modelled; no input considered here
uses it. -/

/-- Value of a digit run, most significant first. -/
def digitsToNat (l : List Char) : ℕ :=
  l.foldl (fun n c => 10 * n + (c.toNat - 48)) 0

/-- Exponent digits after an optional sign; `none` when no digit follows,
in which case `parseFloat` does not consume the exponent marker. -/
def parseExpTail (l : List Char) : Option ℤ :=
  if l.head? = some '+' then
    (fun ds => if ds.isEmpty then none else some (digitsToNat ds : ℤ)) (l.tail.takeWhile Char.isDigit)
  else if l.head? = some '-' then
    (fun ds => if ds.isEmpty then none else some (-(digitsToNat ds : ℤ))) (l.tail.takeWhile Char.isDigit)
  else
    (fun ds => if ds.isEmpty then none else some (digitsToNat ds : ℤ)) (l.takeWhile Char.isDigit)

/-- The exponent part `e/E [sign] digits`, when present. -/
def parseExponent (l : List Char) : Option ℤ :=
  if l.head? = some 'e' ∨ l.head? = some 'E' then parseExpTail l.tail else none

/-- ECMA-262 `parseFloat` on finite decimal literals (see section comment). -/
def jsParseFloat (s : String) : Option ℚ :=
  let l0 := s.data.dropWhile isWsChar
  let sign : ℚ := if l0.head? = some '-' then -1 else 1
  let l1 := if l0.head? = some '-' ∨ l0.head? = some '+' then l0.tail else l0
  let intDs := l1.takeWhile Char.isDigit
  let l2 := l1.dropWhile Char.isDigit
  let fracDs := if l2.head? = some '.' then l2.tail.takeWhile Char.isDigit else []
  let l3 := if l2.head? = some '.' then l2.tail.dropWhile Char.isDigit else l2
  if intDs.isEmpty && fracDs.isEmpty then none
  else
    let mant : ℚ := sign * ((digitsToNat intDs : ℚ) + (digitsToNat fracDs : ℚ) / (10 : ℚ) ^ fracDs.length)
    match parseExponent l3 with
    | some e => some (mant * (10 : ℚ) ^ e)
    | none => some mant

/-- Does a character list NOT begin with anything that could extend a decimal
literal (digit, decimal point, exponent marker)?  Used to state that
`parseFloat` accepts trailing non-numeric text. -/
def nonNumericStart (l : List Char) : Bool :=
  match l.head? with
  | none => true
  | some c => !(c.isDigit || c == '.' || c == 'e' || c == 'E')

/-- `validateNumericInput` from `validation.ts` (the source defaults are
`min = 0`, `max = 1000000`; callers here always pass both).  The interpolated
bounds in the error messages are rendered with `toString`. -/
def validateNumericInput (value fieldName : String) (min max : ℚ) : ValidationResult :=
  match jsParseFloat value with
  | none =>
    ⟨false, some (fieldName ++ (" must be a valid number")), .num 0⟩
  | some numValue =>
    if numValue < min then
      ⟨false, some (fieldName ++ (" must be at least ") ++ toString min), .num min⟩
    else if max < numValue then
      ⟨false, some (fieldName ++ (" cannot exceed ") ++ toString max), .num max⟩
    else
      ⟨true, none, .num numValue⟩

/-! ## Order lines and the request form

From `RequestForm` (`src/unnamed/part_008`) and the shared types: `OrderLine`
and the `RequestCreate` payload held in `formData`, the per-line update
`updateOrderLine` with its auto-calculation of `total_price`, the footer
`calculateTotal`, and the payload assembly of `handleSubmit`
(`{ ...formData, total_cost: total }`). -/

/-- `OrderLine` from `types/request.ts`. -/
structure OrderLine where
  position_description : String
  unit_price : ℚ
  amount : ℚ
  unit : String
  total_price : ℚ
deriving DecidableEq, Repr

/-- The `RequestCreate` payload (the fields held in `formData`). -/
structure RequestCreate where
  requestor_name : String
  title : String
  vendor_name : String
  vat_id : String
  department : String
  total_cost : ℚ
  order_lines : List OrderLine
  commodity_group_id : Option ℕ
deriving DecidableEq, Repr

/-- The `field: keyof OrderLine` argument of `updateOrderLine`. -/
inductive OrderLineField where
  | position_description
  | unit_price
  | amount
  | unit
  | total_price
deriving DecidableEq, Repr

/-- The dynamically typed `value: any` handed to `updateOrderLine`; the
callers always pass a string for the string fields and a number for the
numeric fields. -/
inductive FieldValue where
  | str (s : String)
  | num (q : ℚ)
deriving DecidableEq, Repr

/-- The assignment `newLines[index] = { ...newLines[index], [field]: value }`.
A value of the wrong type for the field is never passed by any caller and is
modelled as leaving the line unchanged. -/
def setLineField (l : OrderLine) : OrderLineField → FieldValue → OrderLine
  | .position_description, .str s => { l with position_description := s }
  | .unit, .str s => { l with unit := s }
  | .unit_price, .num q => { l with unit_price := q }
  | .amount, .num q => { l with amount := q }
  | .total_price, .num q => { l with total_price := q }
  | _, _ => l

/-- `updateOrderLine` from `RequestForm`: write the field at `index`, then,
when the field is `unit_price` or `amount`, auto-calculate
`line.total_price = line.unit_price * line.amount`.  An out-of-range index
leaves the list unchanged (the source callers never produce one). -/
def updateOrderLine (lines : List OrderLine) (index : ℕ)
    (field : OrderLineField) (value : FieldValue) : List OrderLine :=
  match lines[index]? with
  | none => lines
  | some line =>
    let line1 := setLineField line field value
    let line2 :=
      if field = .unit_price ∨ field = .amount then
        { line1 with total_price := line1.unit_price * line1.amount }
      else line1
    lines.set index line2

/-- `calculateTotal` from `RequestForm`:
`order_lines.reduce((sum, line) => sum + line.total_price, 0)`. -/
def calculateTotal (lines : List OrderLine) : ℚ :=
  lines.foldl (fun sum line => sum + line.total_price) 0

/-- The payload assembled by `handleSubmit`:
`{ ...formData, total_cost: calculateTotal() }`. -/
def handleSubmitPayload (formData : RequestCreate) : RequestCreate :=
  { formData with total_cost := calculateTotal formData.order_lines }

/-- The per-line reconciliation step (the auto-calculation of
`updateOrderLine` applied to a line as it stands). -/
def reconcileLine (l : OrderLine) : OrderLine :=
  { l with total_price := l.unit_price * l.amount }

/-- The reconciliation of a whole payload, as the claims compose it from the
source: every line's `total_price` recomputed from `unit_price * amount`
(`updateOrderLine`), then `total_cost` recomputed as the sum of line totals
(`calculateTotal` / `handleSubmit`). -/
def reconcile (p : RequestCreate) : RequestCreate :=
  let lines := p.order_lines.map reconcileLine
  { p with order_lines := lines, total_cost := calculateTotal lines }

/-- Rounding to two decimals (the `round(·, 2)` of the spec), with `round`
half away from zero on non-negatives. -/
def round2 (q : ℚ) : ℚ :=
  (round (q * 100) : ℤ) / 100

/-! ## Status workflow -/

/-- The request status from `frontend/src/types.ts`. -/
inductive Status where
  | Open
  | InProgress
  | Closed
deriving DecidableEq, Repr

/-- Modelled from the spec: the backend endpoint behind
`updateRequestStatus` (`PATCH /requests/{id}/status`) is not among the
provided sources — the frontend only issues the call — so the transition
rule follows the spec's words: allowed transitions are
`Open → In Progress`, `In Progress → Closed`, and directly `Open → Closed`;
`Closed` is terminal and every other transition request fails with
`INVALID_TRANSITION`. -/
def transitionStatus (current requested : Status) : Except String Status :=
  if (current = .Open ∧ requested = .InProgress) ∨
     (current = .InProgress ∧ requested = .Closed) ∨
     (current = .Open ∧ requested = .Closed) then
    .ok requested
  else
    .error ("INVALID_TRANSITION")

/-- The characters that entity substitutions can introduce. -/
def entityChars : List Char :=
  ['&', 'a', 'm', 'p', ';', 'q', 'u', 'o', 't', '#', 'x', '2', '7']

/-- The department characters that survive sanitization unchanged: the
allowed class minus the ampersand (which `sanitizeText` rewrites to
`&amp;`, whose `;` then fails the class). -/
def isDeptPlainChar (c : Char) : Bool :=
  c.isAlpha || isWsChar c || c == '-' || c == '.' || c == '(' || c == ')'

/-! ## Lemmas about the sanitizer -/

theorem escapeEntities_nil : escapeEntities [] = [] := rfl

theorem escapeEntities_cons (c : Char) (t : List Char) :
    escapeEntities (c :: t) = escapeEntity c ++ escapeEntities t := by
  simp [escapeEntities]

theorem eq_of_mem_escapeEntity {c d : Char} (hmem : d ∈ escapeEntity c)
    (hd : d ∉ entityChars) : d = c := by
  unfold escapeEntity at hmem
  split at hmem
  · exfalso; simp [entityChars] at hmem hd; tauto
  · split at hmem
    · exfalso; simp [entityChars] at hmem hd; tauto
    · split at hmem
      · exfalso; simp [entityChars] at hmem hd; tauto
      · simpa using hmem

theorem quote_apos_not_mem_escapeEntity (c : Char) :
    quoteChar ∉ escapeEntity c ∧ aposChar ∉ escapeEntity c := by
  unfold escapeEntity
  split
  · exact ⟨by decide, by decide⟩
  · split
    · exact ⟨by decide, by decide⟩
    · split
      · exact ⟨by decide, by decide⟩
      · next h1 h2 h3 =>
        refine ⟨?_, ?_⟩
        · simp only [List.mem_singleton]
          exact fun h => h2 h.symm
        · simp only [List.mem_singleton]
          exact fun h => h3 h.symm

theorem quote_not_mem_escapeEntities (l : List Char) : quoteChar ∉ escapeEntities l := by
  induction l with
  | nil => simp [escapeEntities]
  | cons c t ih =>
    rw [escapeEntities_cons]
    simp only [List.mem_append]
    rintro (h | h)
    · exact (quote_apos_not_mem_escapeEntity c).1 h
    · exact ih h

theorem apos_not_mem_escapeEntities (l : List Char) : aposChar ∉ escapeEntities l := by
  induction l with
  | nil => simp [escapeEntities]
  | cons c t ih =>
    rw [escapeEntities_cons]
    simp only [List.mem_append]
    rintro (h | h)
    · exact (quote_apos_not_mem_escapeEntity c).2 h
    · exact ih h

theorem not_mem_escapeEntities {l : List Char} {d : Char} (hd : d ∉ entityChars)
    (hl : d ∉ l) : d ∉ escapeEntities l := by
  induction l with
  | nil => simp [escapeEntities]
  | cons c t ih =>
    rw [escapeEntities_cons]
    simp only [List.mem_append]
    simp only [List.mem_cons, not_or] at hl
    rintro (h | h)
    · exact hl.1 (eq_of_mem_escapeEntity h hd)
    · exact ih hl.2 h

theorem mem_of_mem_trimWs {l : List Char} {d : Char} (h : d ∈ trimWs l) : d ∈ l := by
  unfold trimWs at h
  rw [List.mem_reverse] at h
  have h1 : d ∈ (l.dropWhile isWsChar).reverse := (List.dropWhile_sublist _).mem h
  rw [List.mem_reverse] at h1
  exact (List.dropWhile_sublist _).mem h1

theorem dropWhile_dropWhile (p : Char → Bool) (l : List Char) :
    (l.dropWhile p).dropWhile p = l.dropWhile p := by
  induction l with
  | nil => rfl
  | cons c t ih =>
    rw [List.dropWhile_cons]
    split
    · exact ih
    · next h => rw [List.dropWhile_cons, if_neg h]

theorem dropWhile_eq_self_of_head {p : Char → Bool} :
    ∀ {l : List Char}, (∀ c, l.head? = some c → p c = false) → l.dropWhile p = l
  | [], _ => rfl
  | c :: t, h => by
    rw [List.dropWhile_cons, if_neg]
    simp [h c rfl]

theorem head_false_of_dropWhile_eq_self {p : Char → Bool} {l : List Char}
    (h : l.dropWhile p = l) : ∀ c, l.head? = some c → p c = false := by
  cases l with
  | nil => intro c hc; simp at hc
  | cons a t =>
    intro c hc
    simp only [List.head?_cons, Option.some_inj] at hc
    subst hc
    by_contra hb
    rw [List.dropWhile_cons, if_pos (by simpa using hb)] at h
    have hlen : (t.dropWhile p).length ≤ t.length := (List.dropWhile_sublist _).length_le
    rw [h] at hlen
    simp only [List.length_cons] at hlen
    omega

theorem dropWhile_eq_self_of_isPrefix {p : Char → Bool} {l l' : List Char}
    (hpre : l' <+: l) (h : l.dropWhile p = l) : l'.dropWhile p = l' := by
  obtain ⟨r, rfl⟩ := hpre
  cases l' with
  | nil => rfl
  | cons a t =>
    apply dropWhile_eq_self_of_head
    intro c hc
    simp only [List.head?_cons, Option.some_inj] at hc
    exact hc ▸ head_false_of_dropWhile_eq_self h a (by simp)

theorem trimWs_isPrefixOf (l : List Char) : trimWs l <+: l.dropWhile isWsChar := by
  unfold trimWs
  have hs : (l.dropWhile isWsChar).reverse.dropWhile isWsChar <:+
      (l.dropWhile isWsChar).reverse := List.dropWhile_suffix _
  obtain ⟨u, hu⟩ := hs
  refine ⟨u.reverse, ?_⟩
  have := congrArg List.reverse hu
  simpa using this

theorem trimWs_left_fix (l : List Char) : (trimWs l).dropWhile isWsChar = trimWs l :=
  dropWhile_eq_self_of_isPrefix (trimWs_isPrefixOf l) (dropWhile_dropWhile _ l)

theorem trimWs_right_fix (l : List Char) :
    (trimWs l).reverse.dropWhile isWsChar = (trimWs l).reverse := by
  unfold trimWs
  rw [List.reverse_reverse]
  exact dropWhile_dropWhile _ _

theorem escapeEntity_ne_nil (c : Char) : escapeEntity c ≠ [] := by
  unfold escapeEntity
  split
  · decide
  · split
    · decide
    · split
      · decide
      · simp

theorem escapeEntity_head_not_ws {a c : Char} (ha : isWsChar a = false)
    (h : (escapeEntity a).head? = some c) : isWsChar c = false := by
  unfold escapeEntity at h
  split at h
  · simp only [List.head?_cons, Option.some_inj] at h; rw [← h]; decide
  · split at h
    · simp only [List.head?_cons, Option.some_inj] at h; rw [← h]; decide
    · split at h
      · simp only [List.head?_cons, Option.some_inj] at h; rw [← h]; decide
      · simp only [List.head?_cons, Option.some_inj] at h; rw [← h]; exact ha

theorem escapeEntity_reverse_head_not_ws {a c : Char} (ha : isWsChar a = false)
    (h : (escapeEntity a).reverse.head? = some c) : isWsChar c = false := by
  unfold escapeEntity at h
  split at h
  · rw [show (['&', 'a', 'm', 'p', ';'].reverse) = [';', 'p', 'm', 'a', '&'] from rfl] at h
    simp only [List.head?_cons, Option.some_inj] at h; rw [← h]; decide
  · split at h
    · rw [show (['&', 'q', 'u', 'o', 't', ';'].reverse) = [';', 't', 'o', 'u', 'q', '&'] from rfl] at h
      simp only [List.head?_cons, Option.some_inj] at h; rw [← h]; decide
    · split at h
      · rw [show (['&', '#', 'x', '2', '7', ';'].reverse) = [';', '7', '2', 'x', '#', '&'] from rfl] at h
        simp only [List.head?_cons, Option.some_inj] at h; rw [← h]; decide
      · simp only [List.reverse_singleton, List.head?_cons, Option.some_inj] at h
        rw [← h]; exact ha

theorem flatMap_head_not_ws (g : Char → List Char)
    (hg : ∀ a c, isWsChar a = false → (g a).head? = some c → isWsChar c = false)
    (hgne : ∀ a, g a ≠ [])
    {l : List Char} (hl : ∀ c, l.head? = some c → isWsChar c = false) :
    ∀ c, (l.flatMap g).head? = some c → isWsChar c = false := by
  cases l with
  | nil => intro c hc; simp at hc
  | cons a t =>
    intro c hc
    rw [List.flatMap_cons] at hc
    cases hga : g a with
    | nil => exact absurd hga (hgne a)
    | cons b u =>
      rw [hga] at hc
      simp only [List.cons_append, List.head?_cons, Option.some_inj] at hc
      have hb : (g a).head? = some b := by rw [hga]; rfl
      exact hc ▸ hg a b (hl a (by simp)) hb

theorem escapeEntities_reverse (l : List Char) :
    (escapeEntities l).reverse = l.reverse.flatMap (fun c => (escapeEntity c).reverse) := by
  unfold escapeEntities
  rw [List.reverse_flatMap]
  rfl

theorem length_le_length_escapeEntities (l : List Char) :
    l.length ≤ (escapeEntities l).length := by
  induction l with
  | nil => simp [escapeEntities]
  | cons c t ih =>
    rw [escapeEntities_cons, List.length_append, List.length_cons]
    have hc : 1 ≤ (escapeEntity c).length := by
      cases hec : escapeEntity c with
      | nil => exact absurd hec (escapeEntity_ne_nil c)
      | cons b u => simp
    omega

theorem length_lt_length_escapeEntities {l : List Char} (h : '&' ∈ l) :
    l.length < (escapeEntities l).length := by
  induction l with
  | nil => simp at h
  | cons c t ih =>
    rw [escapeEntities_cons, List.length_append, List.length_cons]
    rcases List.mem_cons.mp h with hc | ht
    · have h5 : (escapeEntity c).length = 5 := by rw [← hc, escapeEntity]; decide
      have ht' := length_le_length_escapeEntities t
      omega
    · have hc : 1 ≤ (escapeEntity c).length := by
        cases hec : escapeEntity c with
        | nil => exact absurd hec (escapeEntity_ne_nil c)
        | cons b u => simp
      have := ih ht
      omega

theorem removeAngleBrackets_eq_self {l : List Char} (h1 : '<' ∉ l) (h2 : '>' ∉ l) :
    removeAngleBrackets l = l := by
  unfold removeAngleBrackets
  rw [List.filter_eq_self]
  intro a ha
  simp only [Bool.not_eq_true', Bool.or_eq_false_iff, beq_eq_false_iff_ne, ne_eq]
  exact ⟨fun h => h1 (h ▸ ha), fun h => h2 (h ▸ ha)⟩

theorem sanitizeTextList_out_left_fix (s : String) :
    (sanitizeText s).data.dropWhile isWsChar = (sanitizeText s).data :=
  trimWs_left_fix _

theorem sanitizeTextList_out_right_fix (s : String) :
    (sanitizeText s).data.reverse.dropWhile isWsChar = (sanitizeText s).data.reverse :=
  trimWs_right_fix _

theorem sanitizeText_no_angle (s : String) :
    '<' ∉ (sanitizeText s).data ∧ '>' ∉ (sanitizeText s).data := by
  constructor
  · intro h
    have h1 := mem_of_mem_trimWs h
    have h2 : '<' ∉ removeAngleBrackets s.data := by
      unfold removeAngleBrackets
      intro hm
      have := List.of_mem_filter hm
      simp at this
    exact not_mem_escapeEntities (by decide) h2 h1
  · intro h
    have h1 := mem_of_mem_trimWs h
    have h2 : '>' ∉ removeAngleBrackets s.data := by
      unfold removeAngleBrackets
      intro hm
      have := List.of_mem_filter hm
      simp at this
    exact not_mem_escapeEntities (by decide) h2 h1

theorem sanitizeText_no_quote_apos (s : String) :
    quoteChar ∉ (sanitizeText s).data ∧ aposChar ∉ (sanitizeText s).data := by
  constructor
  · intro h
    exact quote_not_mem_escapeEntities _ (mem_of_mem_trimWs h)
  · intro h
    exact apos_not_mem_escapeEntities _ (mem_of_mem_trimWs h)

theorem sanitizeTextList_of_fixed {out : List Char}
    (h1 : out.dropWhile isWsChar = out)
    (h2 : out.reverse.dropWhile isWsChar = out.reverse)
    (h3 : '<' ∉ out) (h4 : '>' ∉ out) :
    sanitizeTextList out = escapeEntities out := by
  unfold sanitizeTextList
  rw [removeAngleBrackets_eq_self h3 h4]
  have hleft : (escapeEntities out).dropWhile isWsChar = escapeEntities out := by
    apply dropWhile_eq_self_of_head
    exact flatMap_head_not_ws escapeEntity
      (fun a c ha hc => escapeEntity_head_not_ws ha hc)
      escapeEntity_ne_nil
      (head_false_of_dropWhile_eq_self h1)
  have hright : (escapeEntities out).reverse.dropWhile isWsChar = (escapeEntities out).reverse := by
    rw [escapeEntities_reverse]
    apply dropWhile_eq_self_of_head
    apply flatMap_head_not_ws (fun c => (escapeEntity c).reverse)
    · exact fun a c ha hc => escapeEntity_reverse_head_not_ws ha hc
    · intro a
      simp only [ne_eq, List.reverse_eq_nil_iff]
      exact escapeEntity_ne_nil a
    · exact head_false_of_dropWhile_eq_self h2
  unfold trimWs
  rw [hleft, hright, List.reverse_reverse]

/-! ## Claim theorems -/

/-- C4: for every input, `sanitizeText` is exactly the composition
"remove every `<` and `>`, entity-escape `&` to `&amp;`, `"` to `&quot;`
and `'` to `&#x27;`, trim surrounding whitespace"; in particular the output
never contains `<` or `>`, as the spec's concrete example
`sanitizeText("<script>&'\"")` (whose output is `script&amp;&#x27;&quot;`)
illustrates. -/
theorem sanitizeText_characterization (s : String) :
    sanitizeText s = String.mk (trimWs (escapeEntities (removeAngleBrackets s.data))) ∧
    '<' ∉ (sanitizeText s).data ∧ '>' ∉ (sanitizeText s).data ∧
    sanitizeText (String.mk ['<', 's', 'c', 'r', 'i', 'p', 't', '>', '&', aposChar, quoteChar]) =
      ("script&amp;&#x27;&quot;") :=
  ⟨rfl, (sanitizeText_no_angle s).1, (sanitizeText_no_angle s).2, by decide⟩

/-- C9: `sanitizeText` is not idempotent: whenever its output contains `&`,
`"` or `'` (the latter two in fact never occur in an output), sanitizing the
output again changes it, because the `&` of an introduced entity is escaped
a second time. -/
theorem sanitizeText_not_idempotent (s : String)
    (h : '&' ∈ (sanitizeText s).data ∨ quoteChar ∈ (sanitizeText s).data ∨
      aposChar ∈ (sanitizeText s).data) :
    sanitizeText (sanitizeText s) ≠ sanitizeText s := by
  rcases h with h | h | h
  · intro heq
    have hdata : (sanitizeText (sanitizeText s)).data = (sanitizeText s).data :=
      congrArg String.data heq
    have hfix : (sanitizeText (sanitizeText s)).data = escapeEntities (sanitizeText s).data :=
      sanitizeTextList_of_fixed (sanitizeTextList_out_left_fix s)
        (sanitizeTextList_out_right_fix s)
        (sanitizeText_no_angle s).1 (sanitizeText_no_angle s).2
    have hlt := length_lt_length_escapeEntities h
    rw [← hfix, hdata] at hlt
    exact lt_irrefl _ hlt
  · exact absurd h (sanitizeText_no_quote_apos s).1
  · exact absurd h (sanitizeText_no_quote_apos s).2

/-- Witness for C9 at the concrete input `a&b`. -/
theorem sanitizeText_not_idempotent_witness :
    ('&' ∈ (sanitizeText ("a&b")).data ∨ quoteChar ∈ (sanitizeText ("a&b")).data ∨
      aposChar ∈ (sanitizeText ("a&b")).data) ∧
    sanitizeText (sanitizeText ("a&b")) ≠ sanitizeText ("a&b") :=
  ⟨Or.inl (by decide), sanitizeText_not_idempotent ("a&b") (Or.inl (by decide))⟩

/-- C3 (spec-modelled backend): a transition succeeds exactly for
`Open → In Progress`, `In Progress → Closed` and `Open → Closed`, and every
transition requested from `Closed` fails with `INVALID_TRANSITION`. -/
theorem transitionStatus_spec (c r : Status) :
    (transitionStatus c r = .ok r ↔
      (c = .Open ∧ r = .InProgress) ∨ (c = .InProgress ∧ r = .Closed) ∨
      (c = .Open ∧ r = .Closed)) ∧
    (c = .Closed → transitionStatus c r = .error ("INVALID_TRANSITION")) := by
  cases c <;> cases r <;> simp [transitionStatus]

/-- Witness for C3: `Closed → Open` is rejected, `Open → In Progress` is
accepted. -/
theorem transitionStatus_spec_witness :
    transitionStatus .Closed .Open = .error ("INVALID_TRANSITION") ∧
    transitionStatus .Open .InProgress = .ok .InProgress :=
  ⟨(transitionStatus_spec .Closed .Open).2 rfl,
   (transitionStatus_spec .Open .InProgress).1.mpr (Or.inl ⟨rfl, rfl⟩)⟩

theorem foldl_add_total_price (l : List OrderLine) (a : ℚ) :
    l.foldl (fun sum line => sum + line.total_price) a =
      a + (l.map OrderLine.total_price).sum := by
  induction l generalizing a with
  | nil => simp
  | cons x t ih => simp [ih, add_assoc]

theorem calculateTotal_eq_sum (l : List OrderLine) :
    calculateTotal l = (l.map OrderLine.total_price).sum := by
  simp [calculateTotal, foldl_add_total_price]

/-- C1 counterexample: setting `unit_price := 1/8` on a line with
`amount = 1` stores `total_price = 1/8`, which differs from the claimed
`round(unit_price * amount, 2) = 0.13`; the previously supplied total
`99` (deviating by more than `0.01`) is indeed overwritten, but by the
unrounded product. -/
theorem updateOrderLine_no_rounding_cex :
    updateOrderLine [⟨"", 0, 1, "", 99⟩] 0 .unit_price (.num (1/8)) =
      [⟨"", 1/8, 1, "", 1/8⟩] ∧
    round2 ((1/8 : ℚ) * 1) = 13/100 ∧ ((1/8 : ℚ)) ≠ 13/100 ∧
    (99 : ℚ) - 1/8 > 1/100 := by
  refine ⟨?_, ?_, by norm_num, by norm_num⟩
  · simp only [updateOrderLine, List.getElem?_cons_zero, setLineField]
    norm_num [List.set]
  · show ((round ((1/8 : ℚ) * 1 * 100) : ℤ) : ℚ) / 100 = 13/100
    have h13 : ((1/8 : ℚ) * 1 * 100) = 25/2 := by norm_num
    rw [h13, round_eq]
    norm_num

/-- C1 (amended): when `updateOrderLine` sets `unit_price` or `amount`, the
line's stored `total_price` becomes exactly `unit_price * amount` — with no
2-decimal rounding — and any previously supplied `total_price`
(in particular one deviating by more than `0.01`) is unconditionally
overwritten by that product. -/
theorem updateOrderLine_recompute (lines : List OrderLine) (i : ℕ) (old : OrderLine) (v : ℚ)
    (h : lines[i]? = some old) :
    (updateOrderLine lines i .unit_price (.num v))[i]? =
      some { old with unit_price := v, total_price := v * old.amount } ∧
    (updateOrderLine lines i .amount (.num v))[i]? =
      some { old with amount := v, total_price := old.unit_price * v } := by
  have hlen : i < lines.length := by
    rcases List.getElem?_eq_some.mp h with ⟨hl, _⟩
    exact hl
  constructor
  · unfold updateOrderLine
    rw [h]
    simp only [setLineField]
    rw [if_pos (Or.inl trivial : True ∨ OrderLineField.unit_price = OrderLineField.amount)]
    rw [List.getElem?_set_self hlen]
  · unfold updateOrderLine
    rw [h]
    simp only [setLineField]
    rw [if_pos (Or.inr trivial : OrderLineField.amount = OrderLineField.unit_price ∨ True)]
    rw [List.getElem?_set_self hlen]

/-- Witness for C1's amended theorem at a concrete line list. -/
theorem updateOrderLine_recompute_witness :
    (updateOrderLine [⟨"pens", 2, 3, "pc", 50⟩] 0 .amount (.num 4))[0]? =
      some ⟨"pens", 2, 4, "pc", 8⟩ := by
  have h := (updateOrderLine_recompute [⟨"pens", 2, 3, "pc", 50⟩] 0 ⟨"pens", 2, 3, "pc", 50⟩ 4
    (by rfl)).2
  rw [h]
  norm_num

/-- C2: the payload assembled by `handleSubmit` has `total_cost` equal to
`calculateTotal`, hence equal (trivially within the `0.01` tolerance) to the
sum of the order lines' `total_price` values, and the computed sum replaces
whatever top-level `total_cost` the form data carried. -/
theorem handleSubmit_total_cost (p : RequestCreate) (c : ℚ) :
    (handleSubmitPayload p).total_cost = calculateTotal p.order_lines ∧
    |(handleSubmitPayload p).total_cost - (p.order_lines.map OrderLine.total_price).sum| ≤ 1/100 ∧
    handleSubmitPayload { p with total_cost := c } = handleSubmitPayload p := by
  refine ⟨rfl, ?_, rfl⟩
  have hsum : (handleSubmitPayload p).total_cost = (p.order_lines.map OrderLine.total_price).sum :=
    calculateTotal_eq_sum p.order_lines
  rw [hsum, sub_self, abs_zero]
  norm_num

/-- C8: reconciliation (recompute every line's `total_price` from
`unit_price * amount`, then `total_cost` as the sum of line totals) is
idempotent: its output is a fixed point. -/
theorem reconcile_idempotent (p : RequestCreate) : reconcile (reconcile p) = reconcile p := by
  have hmap : ∀ ls : List OrderLine,
      (ls.map reconcileLine).map reconcileLine = ls.map reconcileLine := by
    intro ls
    induction ls with
    | nil => rfl
    | cons x t ih => simp only [List.map_cons, ih]; rfl
  show RequestCreate.mk _ _ _ _ _ _ _ _ = RequestCreate.mk _ _ _ _ _ _ _ _
  simp only [reconcile, hmap]

theorem data_mk_eq (l : List Char) : (String.mk l).data = l := rfl

/-- C5: `validateVatId` sanitizes and upper-cases; empty sanitized input
fails with `VAT ID is required`; a sanitized-then-upper-cased value not
matching "2–4 letters then 8–12 digits" fails but is still returned as
`sanitizedValue`; a matching one succeeds — e.g.
`validateVatId("de123456789") = {isValid: true, sanitizedValue: "DE123456789"}`. -/
theorem validateVatId_spec (s : String) :
    ((sanitizeText s).data.length = 0 →
      validateVatId s = ⟨false, some ("VAT ID is required"), .str (sanitizeText s)⟩) ∧
    ((sanitizeText s).data.length ≠ 0 →
      vatMatches ((sanitizeText s).data.map Char.toUpper) = false →
      validateVatId s =
        ⟨false, some ("VAT ID must be 2-4 letters followed by 8-12 digits (e.g., DE123456789)"),
          .str (String.mk ((sanitizeText s).data.map Char.toUpper))⟩) ∧
    ((sanitizeText s).data.length ≠ 0 →
      vatMatches ((sanitizeText s).data.map Char.toUpper) = true →
      validateVatId s = ⟨true, none, .str (String.mk ((sanitizeText s).data.map Char.toUpper))⟩) ∧
    validateVatId ("de123456789") = ⟨true, none, .str ("DE123456789")⟩ := by
  refine ⟨?_, ?_, ?_, by decide⟩
  · intro h
    simp [validateVatId, h]
  · intro h hm
    have h' : (sanitizeText s).length ≠ 0 := h
    simp [validateVatId, h, h', data_mk_eq, hm]
  · intro h hm
    have h' : (sanitizeText s).length ≠ 0 := h
    simp [validateVatId, h, h', data_mk_eq, hm]

/-- Witness for C5 at the spec's example `XYZ12`. -/
theorem validateVatId_spec_witness :
    validateVatId ("XYZ12") =
      ⟨false, some ("VAT ID must be 2-4 letters followed by 8-12 digits (e.g., DE123456789)"),
        .str ("XYZ12")⟩ :=
  (validateVatId_spec ("XYZ12")).2.1 (by decide) (by decide)

theorem escapeEntity_eq_self {c : Char} (h1 : c ≠ '&') (h2 : c ≠ quoteChar)
    (h3 : c ≠ aposChar) : escapeEntity c = [c] := by
  unfold escapeEntity
  rw [if_neg h1, if_neg h2, if_neg h3]

theorem escapeEntities_eq_self {l : List Char}
    (h : ∀ c ∈ l, c ≠ '&' ∧ c ≠ quoteChar ∧ c ≠ aposChar) : escapeEntities l = l := by
  induction l with
  | nil => rfl
  | cons c t ih =>
    rw [escapeEntities_cons,
      escapeEntity_eq_self (h c (by simp)).1 (h c (by simp)).2.1 (h c (by simp)).2.2,
      ih (fun d hd => h d (by simp [hd]))]
    rfl

theorem deptPlain_not_special {c : Char} (h : isDeptPlainChar c = true) :
    c ≠ '<' ∧ c ≠ '>' ∧ c ≠ '&' ∧ c ≠ quoteChar ∧ c ≠ aposChar ∧
    isDeptAllowedChar c = true := by
  refine ⟨?_, ?_, ?_, ?_, ?_, ?_⟩
  · rintro rfl; exact absurd h (by decide)
  · rintro rfl; exact absurd h (by decide)
  · rintro rfl; exact absurd h (by decide)
  · rintro rfl; exact absurd h (by decide)
  · rintro rfl; exact absurd h (by decide)
  · simp only [isDeptPlainChar, Bool.or_eq_true] at h
    simp only [isDeptAllowedChar, Bool.or_eq_true]
    tauto

theorem sanitizeText_of_plain {s : String} (h : s.data.all isDeptPlainChar = true) :
    sanitizeText s = String.mk (trimWs s.data) := by
  have hall := List.all_eq_true.mp h
  unfold sanitizeText sanitizeTextList
  rw [removeAngleBrackets_eq_self
      (fun hc => (deptPlain_not_special (hall _ hc)).1 rfl)
      (fun hc => (deptPlain_not_special (hall _ hc)).2.1 rfl),
    escapeEntities_eq_self
      (fun c hc => ⟨(deptPlain_not_special (hall c hc)).2.2.1,
        (deptPlain_not_special (hall c hc)).2.2.2.1,
        (deptPlain_not_special (hall c hc)).2.2.2.2.1⟩)]

/-- C6 counterexample: `R&D` consists only of letters and an ampersand — the
claim's allowed set — yet `validateDepartment` rejects it: sanitization first
rewrites `&` to `&amp;`, whose `;` fails the allowed-character pattern, so
the result has `isValid = false` (with the `;` stripped from the returned
value), not `isValid = true` with the value unchanged. -/
theorem validateDepartment_ampersand_cex :
    validateDepartment ("R&D") =
      ⟨false, some ("Department can only contain letters, spaces, hyphens, and common punctuation"),
        .str ("R&ampD")⟩ := by
  decide

/-- C6 (amended): an input of letters, whitespace, hyphen, period and
parentheses — ampersand excluded — that is non-empty and at most 50
characters after trimming validates with the trimmed value unchanged;
when the sanitized value contains characters outside the allowed class the
disallowed characters are stripped into `sanitizedValue` rather than the
input being rejected outright; and the 50-character maximum is enforced by
truncation for values that pass the character pattern. -/
theorem validateDepartment_spec (s : String) :
    (s.data.all isDeptPlainChar = true → trimWs s.data ≠ [] →
      (trimWs s.data).length ≤ 50 →
      validateDepartment s = ⟨true, none, .str (String.mk (trimWs s.data))⟩) ∧
    ((sanitizeText s).data.length ≠ 0 →
      (sanitizeText s).data.all isDeptAllowedChar = false →
      validateDepartment s =
        ⟨false, some ("Department can only contain letters, spaces, hyphens, and common punctuation"),
          .str (String.mk ((sanitizeText s).data.filter isDeptAllowedChar))⟩) ∧
    ((sanitizeText s).data.length ≠ 0 →
      (sanitizeText s).data.all isDeptAllowedChar = true →
      50 < (sanitizeText s).data.length →
      validateDepartment s =
        ⟨false, some ("Department must be 50 characters or less"),
          .str (String.mk ((sanitizeText s).data.take 50))⟩) := by
  refine ⟨?_, ?_, ?_⟩
  · intro h1 h2 h3
    have hsan := sanitizeText_of_plain h1
    have hne : (trimWs s.data).length ≠ 0 := by
      intro h0
      exact h2 (List.length_eq_zero.mp h0)
    have hall : (trimWs s.data).all isDeptAllowedChar = true := by
      rw [List.all_eq_true]
      intro c hc
      exact (deptPlain_not_special (List.all_eq_true.mp h1 c (mem_of_mem_trimWs hc))).2.2.2.2.2
    have hlen : ¬(50 < (trimWs s.data).length) := by omega
    simp [validateDepartment, hsan, data_mk_eq, hne, hall, hlen]
  · intro h1 h2
    have h1' : (sanitizeText s).length ≠ 0 := h1
    simp [validateDepartment, h1, h1', h2]
  · intro h1 h2 h3
    have h1' : (sanitizeText s).length ≠ 0 := h1
    have h3' : 50 < (sanitizeText s).length := h3
    simp [validateDepartment, h1, h1', h2, h3, h3']

/-- Witness for C6's amended theorem at the input `Finance`. -/
theorem validateDepartment_spec_witness :
    validateDepartment ("Finance") = ⟨true, none, .str ("Finance")⟩ :=
  (validateDepartment_spec ("Finance")).1 (by decide) (by decide) (by decide)

/-- C7: `validateNumericInput` with bounds `min ≤ max` returns
`{isValid: false, sanitizedValue: 0}` on unparsable input, clamps to `min`
(resp. `max`) with `isValid false` when the parsed number lies below
(resp. above) the range — the clamped value, not the original, is the
sanitized value — and returns `{isValid: true}` with the parsed number when
it lies in `[min, max]`. -/
theorem validateNumericInput_spec (value fieldName : String) (min max : ℚ)
    (hminmax : min ≤ max) :
    (jsParseFloat value = none →
      validateNumericInput value fieldName min max =
        ⟨false, some (fieldName ++ (" must be a valid number")), .num 0⟩) ∧
    (∀ v, jsParseFloat value = some v → v < min →
      validateNumericInput value fieldName min max =
        ⟨false, some (fieldName ++ (" must be at least ") ++ toString min), .num min⟩) ∧
    (∀ v, jsParseFloat value = some v → max < v →
      validateNumericInput value fieldName min max =
        ⟨false, some (fieldName ++ (" cannot exceed ") ++ toString max), .num max⟩) ∧
    (∀ v, jsParseFloat value = some v → min ≤ v → v ≤ max →
      validateNumericInput value fieldName min max = ⟨true, none, .num v⟩) := by
  refine ⟨?_, ?_, ?_, ?_⟩
  · intro h
    simp [validateNumericInput, h]
  · intro v h hv
    simp [validateNumericInput, h, hv]
  · intro v h hv
    have hnl : ¬(v < min) := not_lt.mpr (le_trans hminmax (le_of_lt hv))
    simp [validateNumericInput, h, hnl, hv]
  · intro v h h1 h2
    have hnl : ¬(v < min) := not_lt.mpr h1
    have hnr : ¬(max < v) := not_lt.mpr h2
    simp [validateNumericInput, h, hnl, hnr]

theorem isWs_false_of_isDigit {c : Char} (h : c.isDigit = true) : isWsChar c = false := by
  cases hx : isWsChar c
  · rfl
  · exfalso
    simp only [isWsChar, Bool.or_eq_true, beq_iff_eq] at hx
    rcases hx with ((((h1 | h1) | h1) | h1) | h1) | h1 <;> subst h1 <;>
      exact absurd h (by decide)

theorem sign_ne_of_isDigit {c : Char} (h : c.isDigit = true) :
    c ≠ '-' ∧ c ≠ '+' ∧ c ≠ '.' ∧ c ≠ 'e' ∧ c ≠ 'E' := by
  refine ⟨?_, ?_, ?_, ?_, ?_⟩ <;> rintro rfl <;> exact absurd h (by decide)

/-- `parseFloat` on a non-empty run of digits followed by text that cannot
extend a decimal literal: the digit run's value, trailing text ignored. -/
theorem jsParseFloat_append_digits (ds rest : List Char) (hne : ds ≠ [])
    (hds : ds.all Char.isDigit = true) (hrest : nonNumericStart rest = true) :
    jsParseFloat (String.mk (ds ++ rest)) = some ((digitsToNat ds : ℚ)) := by
  obtain ⟨d, ds', rfl⟩ : ∃ d ds', ds = d :: ds' := by
    cases ds with
    | nil => exact absurd rfl hne
    | cons a t => exact ⟨a, t, rfl⟩
  have hall : ∀ a ∈ d :: ds', a.isDigit = true := List.all_eq_true.mp hds
  have hd : d.isDigit = true := hall d (by simp)
  have hrt : rest.takeWhile Char.isDigit = [] ∧ rest.dropWhile Char.isDigit = rest ∧
      rest.head? ≠ some '.' ∧ rest.head? ≠ some 'e' ∧ rest.head? ≠ some 'E' := by
    cases rest with
    | nil => exact ⟨rfl, rfl, by simp, by simp, by simp⟩
    | cons c t =>
      simp only [nonNumericStart, List.head?_cons, Bool.not_eq_true', Bool.or_eq_false_iff,
        beq_eq_false_iff_ne, ne_eq] at hrest
      obtain ⟨⟨⟨hcd, hcp⟩, hce⟩, hcE⟩ := hrest
      refine ⟨List.takeWhile_cons_of_neg (by simp [hcd]),
        List.dropWhile_cons_of_neg (by simp [hcd]), ?_, ?_, ?_⟩
      · simp only [List.head?_cons, ne_eq, Option.some_inj]; exact hcp
      · simp only [List.head?_cons, ne_eq, Option.some_inj]; exact hce
      · simp only [List.head?_cons, ne_eq, Option.some_inj]; exact hcE
  have hd5 := sign_ne_of_isDigit hd
  have hl0 : ((d :: ds') ++ rest).dropWhile isWsChar = (d :: ds') ++ rest := by
    rw [List.cons_append, List.dropWhile_cons_of_neg (by simp [isWs_false_of_isDigit hd])]
  have hhead : ((d :: ds') ++ rest).head? = some d := by simp
  have htake : ((d :: ds') ++ rest).takeWhile Char.isDigit = d :: ds' := by
    rw [List.takeWhile_append_of_pos hall, hrt.1, List.append_nil]
  have hdrop : ((d :: ds') ++ rest).dropWhile Char.isDigit = rest := by
    rw [List.dropWhile_append_of_pos hall, hrt.2.1]
  have hexp : parseExponent rest = none := by
    unfold parseExponent
    rw [if_neg]
    rintro (h | h)
    · exact hrt.2.2.2.1 h
    · exact hrt.2.2.2.2 h
  have hnsign : ¬(((d :: ds') ++ rest).head? = some '-') := by
    rw [hhead]
    intro h
    exact hd5.1 (Option.some_inj.mp h)
  have hnsigns : ¬(((d :: ds') ++ rest).head? = some '-' ∨
      ((d :: ds') ++ rest).head? = some '+') := by
    rw [hhead]
    rintro (h | h)
    · exact hd5.1 (Option.some_inj.mp h)
    · exact hd5.2.1 (Option.some_inj.mp h)
  simp only [jsParseFloat, data_mk_eq, hl0, if_neg hnsign, if_neg hnsigns, htake, hdrop,
    if_neg hrt.2.2.1, hexp, List.isEmpty_cons, Bool.false_and, Bool.false_eq_true,
    if_false, Option.some_inj]
  have h0 : digitsToNat [] = 0 := rfl
  rw [h0]
  push_cast
  ring_nf

/-- Witness for C7: `99` against bounds `[0, 10]` clamps to the maximum. -/
theorem validateNumericInput_spec_witness :
    validateNumericInput ("99") ("F") 0 10 =
      ⟨false, some (("F") ++ (" cannot exceed ") ++ toString (10 : ℚ)), .num 10⟩ := by
  have hp : jsParseFloat ("99") = some 99 := by
    have h := jsParseFloat_append_digits ['9', '9'] [] (by decide) (by decide) (by decide)
    have hs : String.mk (['9', '9'] ++ []) = "99" := rfl
    rw [hs] at h
    rw [h]
    norm_num [show digitsToNat ['9', '9'] = 99 from by decide]
  exact (validateNumericInput_spec ("99") ("F") 0 10 (by norm_num)).2.2.1 99 hp (by norm_num)

/-- C10: `validateNumericInput` accepts input whose leading characters form
a decimal number and whose remainder cannot extend it: `parseFloat` reads
the leading digit run (trailing text ignored), and when the value lies in
`[min, max]` the result is `isValid: true` with that value — only inputs
with no parsable leading number are rejected as not-a-number. -/
theorem validateNumericInput_leading_number (ds rest : List Char) (hne : ds ≠ [])
    (hds : ds.all Char.isDigit = true) (hrest : nonNumericStart rest = true) :
    jsParseFloat (String.mk (ds ++ rest)) = some ((digitsToNat ds : ℚ)) ∧
    (∀ (fieldName : String) (min max : ℚ),
      min ≤ (digitsToNat ds : ℚ) → (digitsToNat ds : ℚ) ≤ max →
      validateNumericInput (String.mk (ds ++ rest)) fieldName min max =
        ⟨true, none, .num ((digitsToNat ds : ℚ))⟩) := by
  have hp := jsParseFloat_append_digits ds rest hne hds hrest
  refine ⟨hp, ?_⟩
  intro fieldName min max h1 h2
  have hnl : ¬((digitsToNat ds : ℚ) < min) := not_lt.mpr h1
  have hnr : ¬(max < (digitsToNat ds : ℚ)) := not_lt.mpr h2
  simp [validateNumericInput, hp, hnl, hnr]

/-- Witness for C10 at the input `12abc`. -/
theorem validateNumericInput_leading_number_witness :
    jsParseFloat ("12abc") = some 12 ∧
    validateNumericInput ("12abc") ("Unit Price") 0 1000000 = ⟨true, none, .num 12⟩ := by
  have h := validateNumericInput_leading_number ['1', '2'] ['a', 'b', 'c'] (by decide)
    (by decide) (by decide)
  have hs : String.mk (['1', '2'] ++ ['a', 'b', 'c']) = "12abc" := rfl
  have hd : ((digitsToNat ['1', '2'] : ℕ) : ℚ) = 12 := by
    norm_num [show digitsToNat ['1', '2'] = 12 from by decide]
  rw [hs, hd] at h
  exact ⟨h.1, h.2 ("Unit Price") 0 1000000 (by norm_num) (by norm_num)⟩
